import Mathlib

/-!
Verification development for the external-rule (plugin) boundary and two
native lint rules of a linter core.

The embedding follows:
* `examples/dlint/js.rs` — the external-rule host (`PluginRunner::run`,
  `JsRunner::new`, the three host ops, and the JS bootstrap driver embedded
  in `create_dummy_source`);
* `src/rules/use_isnan.rs` — the `use-isnan` rule's switch visitor;
* `src/rules/no_non_null_assertion.rs` — the `no-non-null-assertion` visitor.

Machine integers (`u32` byte offsets) are modelled as `Nat`; no arithmetic
overflows are reachable in the embedded code paths.
-/

/-- `Span` — byte-offset range `{lo, hi}` (swc `Span`, `u32` positions). -/
structure Span where
  lo : Nat
  hi : Nat
deriving DecidableEq

/-- `InnerDiagnostics` (js.rs lines 26–31): one diagnostic record as reported
by the external module through `op_add_diagnostics`. -/
structure InnerDiagnostics where
  span : Span
  message : String
  hint : Option String
deriving DecidableEq

/-- `Diagnostic` — the record stored by the Diagnostic Context
(`{rule_code, span, message, hint}`, spec §3). -/
structure Diagnostic where
  rule_code : String
  span : Span
  message : String
  hint : Option String
deriving DecidableEq

/-- Per-position control-flow facts (`ControlFlowMeta`). -/
structure ControlFlowMeta where
  unreachable : Bool
  stops_execution : Bool
deriving DecidableEq

/-- `ControlFlow` — map from a position key (the `lo` byte offset) to its
`ControlFlowMeta`, as an association list. -/
abbrev ControlFlow := List (Nat × ControlFlowMeta)

/-- Modelled from the spec: `ControlFlow::meta` lives in
`src/control_flow.rs`, which is not among the provided sources; per spec
§4.1, `graph.meta(position)` returns the recorded fact for the position key,
and `None` if the position was never recorded. -/
def ControlFlow.meta : ControlFlow → Nat → Option ControlFlowMeta
  | [], _ => none
  | (k, m) :: rest, pos => if k = pos then some m else ControlFlow.meta rest pos

/-- Association-list lookup, used for the per-invocation diagnostic map and
the JS-side rule map. -/
def assocGet {α : Type} : List (String × α) → String → Option α
  | [], _ => none
  | (k, v) :: rest, c => if k = c then some v else assocGet rest c

/-- Keyed overwrite, the observable content semantics of
`HashMap::insert` used by `op_add_diagnostics` (js.rs line 53): an existing
key's value is replaced (not merged), a new key is added. -/
def hashMapInsert {α : Type} : List (String × α) → String → α → List (String × α)
  | [], code, v => [(code, v)]
  | (k, w) :: rest, code, v =>
    if k = code then (code, v) :: rest else (k, w) :: hashMapInsert rest code v

/-- The observable content semantics of `HashSet::insert` used by
`op_add_rule_code` (js.rs line 68). -/
def hashSetInsert : List String → String → List String
  | [], code => [code]
  | k :: rest, code => if k = code then k :: rest else k :: hashSetInsert rest code

/-- The per-invocation op state: the diagnostic map
(`Diagnostics = HashMap<String, Vec<InnerDiagnostics>>`, js.rs line 38) and
the registered-code set (`Codes = HashSet<String>`, js.rs line 39). A fresh
`JsRuntime` starts with neither present, which is observably the empty map
and the empty set (`try_take(...).unwrap_or_else(new)`). -/
structure OpState where
  diagnostics : List (String × List InnerDiagnostics)
  codes : List String
deriving DecidableEq

/-- The op state of a freshly created `JsRuntime` (`JsRunner::new`). -/
def initState : OpState := { diagnostics := [], codes := [] }

/-- `op_add_diagnostics` (js.rs lines 42–57): store the reported list under
its code — last write for a given code wins. -/
def op_add_diagnostics (state : OpState) (code : String)
    (diagnostics : List InnerDiagnostics) : OpState :=
  { state with diagnostics := hashMapInsert state.diagnostics code diagnostics }

/-- `op_add_rule_code` (js.rs lines 60–72): record a registered rule code. -/
def op_add_rule_code (state : OpState) (code : String) : OpState :=
  { state with codes := hashSetInsert state.codes code }

/-- The response shape of `op_query_control_flow_by_span`
(js.rs lines 93–98). -/
structure ControlFlowResponse where
  is_reachable : Option Bool
  stops_execution : Option Bool
deriving DecidableEq

/-- `op_query_control_flow_by_span` (js.rs lines 74–104): look up the meta
recorded at `span.lo`; map absence to `none`/`none`. -/
def op_query_control_flow_by_span (control_flow : ControlFlow)
    (span : Span) : ControlFlowResponse :=
  let meta := control_flow.meta span.lo
  { is_reachable := meta.map (fun m => !m.unreachable),
    stops_execution := meta.map (fun m => m.stops_execution) }

/-- One host-op call made from inside the sandboxed environment. -/
inductive OpCall where
  | addRuleCode : String → OpCall
  | addDiagnostics : String → List InnerDiagnostics → OpCall
deriving DecidableEq

/-- Apply one op call to the op state (dispatch to the registered ops). -/
def applyOp (s : OpState) : OpCall → OpState
  | OpCall.addRuleCode code => op_add_rule_code s code
  | OpCall.addDiagnostics code ds => op_add_diagnostics s code ds

/-- Apply a sequence of op calls in order. -/
def stateAfter (ops : List OpCall) (s : OpState) : OpState :=
  ops.foldl applyOp s

/-- The Diagnostic Context surface the boundary writes into. -/
structure Context where
  diagnostics : List Diagnostic
  pluginCodes : List String
deriving DecidableEq

/-- Modelled from the spec: `Context::add_diagnostic` lives in
`src/context.rs`, which is not among the provided sources; per spec §4.2 it
appends a diagnostic with no hint to the context's list and never fails. -/
def Context.add_diagnostic (ctx : Context) (span : Span) (code : String)
    (message : String) : Context :=
  { ctx with diagnostics := ctx.diagnostics ++ [⟨code, span, message, none⟩] }

/-- Modelled from the spec: `Context::add_diagnostic_with_hint` lives in
`src/context.rs`, which is not among the provided sources; per spec §4.2 it
appends a diagnostic with the given hint attached. -/
def Context.add_diagnostic_with_hint (ctx : Context) (span : Span)
    (code : String) (message : String) (hint : String) : Context :=
  { ctx with diagnostics := ctx.diagnostics ++ [⟨code, span, message, some hint⟩] }

/-- Modelled from the spec: `Context::set_plugin_codes` lives in
`src/context.rs`, which is not among the provided sources; per spec §4.2 it
records which external rule codes were discovered during the run. -/
def Context.set_plugin_codes (ctx : Context) (codes : List String) : Context :=
  { ctx with pluginCodes := codes }

/-- The diagnostic the harvest loop (js.rs lines 208–215) hands to the
context for one `(code, record)` pair. -/
def toDiagnostic (code : String) (d : InnerDiagnostics) : Diagnostic :=
  ⟨code, d.span, d.message, d.hint⟩

/-- One step of the harvest loop (js.rs lines 210–214): a record with a hint
goes through `add_diagnostic_with_hint`, one without through
`add_diagnostic`. -/
def foldDiagnostic (ctx : Context) (code : String) (d : InnerDiagnostics) : Context :=
  match d.hint with
  | some hint => ctx.add_diagnostic_with_hint d.span code d.message hint
  | none => ctx.add_diagnostic d.span code d.message

/-- The harvest loop of `PluginRunner::run` (js.rs lines 207–217), folding a
sequence of diagnostic-map entries into the context in the order given. -/
def harvestInto (ctx : Context) (entries : List (String × List InnerDiagnostics)) : Context :=
  entries.foldl (fun c p => p.2.foldl (fun c2 d => foldDiagnostic c2 p.1 d) c) ctx

/-- The flat list of diagnostics produced by harvesting the given entries in
the given order. -/
def harvestList : List (String × List InnerDiagnostics) → List Diagnostic
  | [] => []
  | (code, ds) :: rest => ds.map (toDiagnostic code) ++ harvestList rest

/-- The observable behavior of one external module during one invocation:
whether the module loads (`JsRunner::new`, `load_module` at js.rs line 154),
whether its evaluation settles without a fault (`run_event_loop` at line
177), the op calls it makes while evaluating, the op calls its
`runPlugins` entry point makes before completing or faulting, and whether
`runPlugins` completes without throwing (js.rs line 199). -/
structure ModuleBehavior where
  loadOk : Bool
  evalOk : Bool
  evalOps : List OpCall
  runOps : List OpCall
  runOk : Bool
deriving DecidableEq

/-- The op state after module evaluation (fresh runtime, then the
evaluation-time op calls). -/
def evalState (m : ModuleBehavior) : OpState := stateAfter m.evalOps initState

/-- The registered codes taken from the op state after evaluation
(js.rs lines 179–184, `try_take::<Codes>`). -/
def codesAfterEval (m : ModuleBehavior) : List String := (evalState m).codes

/-- The per-invocation diagnostic map as it stands when the harvest runs:
the evaluation state (codes removed by `try_take`) after the entry point's
op calls. -/
def finalDiagEntries (m : ModuleBehavior) : List (String × List InnerDiagnostics) :=
  (stateAfter m.runOps { evalState m with codes := [] }).diagnostics

/-- The three ways `PluginRunner::run` can end: an aborting panic (a failed
`unwrap`), a recoverable `Err` (propagated by `?` from `execute_script`),
or `Ok` — the latter two carrying the context as mutated. -/
inductive RunResult where
  | aborted : RunResult
  | errResult : Context → RunResult
  | okResult : Context → RunResult
deriving DecidableEq

/-- `PluginRunner::run` (js.rs lines 160–220) as a relation between the
module's behavior, the incoming context, and the outcome.

* A load failure (`load_module(..).unwrap()`, js.rs line 154) or an
  evaluation fault (`run_event_loop(..).unwrap()`, line 177) panics.
* Otherwise the registered codes are taken and recorded via
  `set_plugin_codes` (line 186); a fault thrown by the `runPlugins` script
  is propagated by `?` (line 199), returning `Err` before the harvest, so
  nothing is folded into the context.
* On success the diagnostic map is harvested. The map is a Rust `HashMap`
  whose iteration order is unspecified and varies between runs, so the
  harvest order is related to the map's entries only up to permutation. -/
def PluginRun (m : ModuleBehavior) (ctx : Context) (r : RunResult) : Prop :=
  match m.loadOk && m.evalOk, m.runOk with
  | false, _ => r = RunResult.aborted
  | true, false =>
    r = RunResult.errResult (Context.set_plugin_codes ctx (codesAfterEval m))
  | true, true =>
    ∃ e, List.Perm e (finalDiagEntries m) ∧
      r = RunResult.okResult
        (harvestInto (Context.set_plugin_codes ctx (codesAfterEval m)) e)

/-- What one JS rule object contributes: its declared code and the
diagnostics `collectDiagnostics(programAst)` returns for the program under
analysis. -/
structure JsRuleBehavior where
  code : String
  collected : List InnerDiagnostics
deriving DecidableEq

/-- The `runPlugins` driver embedded in `create_dummy_source`
(js.rs lines 233–242): iterate the active rule codes; a code with no
registered rule is skipped (`continue`); a registered rule's collected
diagnostics are reported through `op_add_diagnostics`. -/
def runPlugins (rules : List (String × JsRuleBehavior)) : List String → List OpCall
  | [] => []
  | code :: rest =>
    match assocGet rules code with
    | none => runPlugins rules rest
    | some rule => OpCall.addDiagnostics code rule.collected :: runPlugins rules rest

/-- An identifier node (swc `Ident`): span and symbol. -/
structure Ident where
  span : Span
  sym : String
deriving DecidableEq

/-- The expression shapes the `use-isnan` switch visitor distinguishes: an
identifier, or anything else. -/
inductive JsExpr where
  | ident : Ident → JsExpr
  | otherExpr : Span → JsExpr
deriving DecidableEq

/-- A `case` clause: its span and optional test expression (`None` for
`default`). -/
structure SwitchCase where
  span : Span
  test : Option JsExpr
deriving DecidableEq

/-- A `switch` statement: its span, discriminant, and case clauses. -/
structure SwitchStmt where
  span : Span
  discriminant : JsExpr
  cases : List SwitchCase
deriving DecidableEq

/-- The `use-isnan` rule code (use_isnan.rs line 12). -/
def useIsNaNCode : String := "use-isnan"

/-- `UseIsNaNMessage::SwitchUnmatched` (use_isnan.rs lines 19–22). -/
def switchUnmatchedMessage : String :=
  "'switch(NaN)' can never match a case clause. Use Number.isNaN instead of the switch"

/-- `UseIsNaNMessage::CaseUnmatched` (use_isnan.rs lines 24–27). -/
def caseUnmatchedMessage : String :=
  "'case NaN' can never match. Use Number.isNaN before the switch"

/-- `is_nan_identifier` (use_isnan.rs lines 71–73). -/
def is_nan_identifier (ident : Ident) : Bool := ident.sym == "NaN"

/-- The per-case body of the loop in `visit_switch_stmt`
(use_isnan.rs lines 128–140). -/
def visitSwitchCase (ctx : Context) (cse : SwitchCase) : Context :=
  match cse.test with
  | some (JsExpr.ident ident) =>
    if is_nan_identifier ident then
      ctx.add_diagnostic cse.span useIsNaNCode caseUnmatchedMessage
    else ctx
  | _ => ctx

/-- The discriminant check at the start of `visit_switch_stmt`
(use_isnan.rs lines 118–126). -/
def visitSwitchDiscriminant (ctx : Context) (switch_stmt : SwitchStmt) : Context :=
  match switch_stmt.discriminant with
  | JsExpr.ident ident =>
    if is_nan_identifier ident then
      ctx.add_diagnostic switch_stmt.span useIsNaNCode switchUnmatchedMessage
    else ctx
  | _ => ctx

/-- `UseIsNaNVisitor::visit_switch_stmt` (use_isnan.rs lines 113–141):
flag an identifier-`NaN` discriminant at the switch's span, then each
identifier-`NaN` case test at the case's span. -/
def visit_switch_stmt (ctx : Context) (switch_stmt : SwitchStmt) : Context :=
  switch_stmt.cases.foldl visitSwitchCase (visitSwitchDiscriminant ctx switch_stmt)

/-- A TypeScript-flavored expression tree, enough to express chains of
non-null assertions nested through member/unary/call positions. -/
inductive TsExpr where
  | identExpr : Span → String → TsExpr
  | member : Span → TsExpr → TsExpr → TsExpr
  | unary : Span → TsExpr → TsExpr
  | tsNonNull : Span → TsExpr → TsExpr
deriving DecidableEq

/-- The `no-non-null-assertion` rule code (no_non_null_assertion.rs line 11). -/
def noNonNullAssertionCode : String := "no-non-null-assertion"

/-- `NoNonNullAssertionMessage::Unexpected`
(no_non_null_assertion.rs lines 14–16). -/
def noNonNullAssertionMessage : String := "do not use non-null assertion"

/-- `NoNonNullAssertionVisitor::visit_ts_non_null_expr`
(no_non_null_assertion.rs lines 57–67): report the assertion at its span.
The override does not call back into the default traversal, so the node's
children are not visited. -/
def visit_ts_non_null_expr (ctx : Context) (span : Span) : Context :=
  ctx.add_diagnostic span noNonNullAssertionCode noNonNullAssertionMessage

/-- The visitor's traversal over expressions: default visits descend into
children; a `TsNonNullExpr` is handled by the override, which reports it and
does not descend. -/
def noNonNullVisitExpr (ctx : Context) : TsExpr → Context
  | TsExpr.identExpr _ _ => ctx
  | TsExpr.member _ obj prop => noNonNullVisitExpr (noNonNullVisitExpr ctx obj) prop
  | TsExpr.unary _ arg => noNonNullVisitExpr ctx arg
  | TsExpr.tsNonNull span _ => visit_ts_non_null_expr ctx span

/-- Key-distinctness of an association list (the defining invariant of a
`HashMap`'s entry collection). -/
def NodupKeys {α : Type} (m : List (String × α)) : Prop :=
  (m.map Prod.fst).Nodup

/-- `d` is one of the diagnostics the module behavior `m` itself reported
through `op_add_diagnostics` during its invocation (while evaluating or
inside its entry point). -/
def ReportedBy (m : ModuleBehavior) (d : Diagnostic) : Prop :=
  ∃ code ds x,
    (OpCall.addDiagnostics code ds ∈ m.evalOps ∨
      OpCall.addDiagnostics code ds ∈ m.runOps) ∧
    x ∈ ds ∧ d = toDiagnostic code x

/-- An empty Diagnostic Context, as at the start of a lint run. -/
def ctxE : Context := { diagnostics := [], pluginCodes := [] }

/-- A concrete reported diagnostic record. -/
def dFaultInner : InnerDiagnostics :=
  { span := { lo := 1, hi := 2 }, message := "m", hint := none }

/-- A module that registers `"r"`, reports one diagnostic for `"r"` inside
its entry point, and then faults before the entry point completes. -/
def mFault : ModuleBehavior :=
  { loadOk := true, evalOk := true,
    evalOps := [OpCall.addRuleCode "r"],
    runOps := [OpCall.addDiagnostics "r" [dFaultInner]],
    runOk := false }

/-- The context as it stands when `mFault`'s invocation returns `Err`. -/
def ctxAfterFault : Context :=
  Context.set_plugin_codes ctxE (codesAfterEval mFault)

/-- A module whose load fails (e.g. a syntax error in the module file). -/
def mLoadFail : ModuleBehavior :=
  { loadOk := false, evalOk := true, evalOps := [], runOps := [], runOk := true }

/-- A concrete reported record for code `"a"`. -/
def daInner : InnerDiagnostics :=
  { span := { lo := 0, hi := 1 }, message := "da", hint := none }

/-- A concrete reported record for code `"b"`. -/
def dbInner : InnerDiagnostics :=
  { span := { lo := 2, hi := 3 }, message := "db", hint := none }

/-- A module that successfully reports one diagnostic for each of the two
codes `"a"` and `"b"`, in that order. -/
def mMulti : ModuleBehavior :=
  { loadOk := true, evalOk := true, evalOps := [],
    runOps := [OpCall.addDiagnostics "a" [daInner],
               OpCall.addDiagnostics "b" [dbInner]],
    runOk := true }

/-- `mMulti`'s final diagnostic map, enumerated `"a"` first. -/
def entriesAB : List (String × List InnerDiagnostics) :=
  [("a", [daInner]), ("b", [dbInner])]

/-- `mMulti`'s final diagnostic map, enumerated `"b"` first. -/
def entriesBA : List (String × List InnerDiagnostics) :=
  [("b", [dbInner]), ("a", [daInner])]

/-- The context `mMulti`'s run produces when the map iterates `"a"` first. -/
def cOrdA : Context :=
  harvestInto (Context.set_plugin_codes ctxE (codesAfterEval mMulti)) entriesAB

/-- The context `mMulti`'s run produces when the map iterates `"b"` first. -/
def cOrdB : Context :=
  harvestInto (Context.set_plugin_codes ctxE (codesAfterEval mMulti)) entriesBA

/-- First invocation for the isolation scenario: registers `"r"` and reports
one diagnostic for it. -/
def mIso1 : ModuleBehavior :=
  { loadOk := true, evalOk := true,
    evalOps := [OpCall.addRuleCode "r"],
    runOps := [OpCall.addDiagnostics "r" [dFaultInner]],
    runOk := true }

/-- Second invocation for the isolation scenario: registers `"r"` again but
reports nothing for it. -/
def mIso2 : ModuleBehavior :=
  { loadOk := true, evalOk := true,
    evalOps := [OpCall.addRuleCode "r"],
    runOps := [OpCall.addDiagnostics "r" []],
    runOk := true }

/-- The context after `mIso1`'s invocation (map iterated in insertion
order). -/
def ctxIso1 : Context :=
  harvestInto (Context.set_plugin_codes ctxE (codesAfterEval mIso1))
    (finalDiagEntries mIso1)

/-- The context after `mIso2`'s subsequent invocation. -/
def ctxIso2 : Context :=
  harvestInto (Context.set_plugin_codes ctxIso1 (codesAfterEval mIso2))
    (finalDiagEntries mIso2)

/-- A JS-side rule map registering only the code `"bar"`. -/
def rulesW : List (String × JsRuleBehavior) :=
  [("bar", { code := "bar", collected := [daInner] })]

/-- A concrete `switch (NaN) { case NaN: ... }` statement. -/
def switchW : SwitchStmt :=
  { span := { lo := 0, hi := 30 },
    discriminant := JsExpr.ident { span := { lo := 8, hi := 11 }, sym := "NaN" },
    cases := [{ span := { lo := 15, hi := 25 },
                test := some (JsExpr.ident { span := { lo := 20, hi := 23 }, sym := "NaN" }) }] }

theorem foldDiagnostic_diagnostics (ctx : Context) (code : String) (d : InnerDiagnostics) :
    (foldDiagnostic ctx code d).diagnostics = ctx.diagnostics ++ [toDiagnostic code d] := by
  cases d with
  | mk span message hint => cases hint <;> rfl

theorem harvestCode_diagnostics (code : String) (ds : List InnerDiagnostics) (ctx : Context) :
    (ds.foldl (fun c2 d => foldDiagnostic c2 code d) ctx).diagnostics
      = ctx.diagnostics ++ ds.map (toDiagnostic code) := by
  induction ds generalizing ctx with
  | nil => simp
  | cons d rest ih =>
    simp only [List.foldl_cons, List.map_cons]
    rw [ih, foldDiagnostic_diagnostics]
    simp

theorem harvestInto_diagnostics (e : List (String × List InnerDiagnostics)) (ctx : Context) :
    (harvestInto ctx e).diagnostics = ctx.diagnostics ++ harvestList e := by
  induction e generalizing ctx with
  | nil => simp [harvestInto, harvestList]
  | cons p rest ih =>
    cases p with
    | mk code ds =>
      show (harvestInto (ds.foldl (fun c2 d => foldDiagnostic c2 code d) ctx) rest).diagnostics = _
      rw [ih, harvestCode_diagnostics, harvestList]
      simp

theorem assocGet_hashMapInsert_self {α : Type} (m : List (String × α)) (c : String) (v : α) :
    assocGet (hashMapInsert m c v) c = some v := by
  induction m with
  | nil => simp [hashMapInsert, assocGet]
  | cons p rest ih =>
    cases p with
    | mk k w =>
      by_cases h : k = c
      · simp [hashMapInsert, h, assocGet]
      · simp [hashMapInsert, h, assocGet, ih]

theorem assocGet_hashMapInsert_ne {α : Type} (m : List (String × α)) (k c : String) (v : α)
    (h : k ≠ c) : assocGet (hashMapInsert m k v) c = assocGet m c := by
  induction m with
  | nil => simp [hashMapInsert, assocGet, h]
  | cons p rest ih =>
    cases p with
    | mk k2 w =>
      by_cases h2 : k2 = k
      · subst h2; simp [hashMapInsert, assocGet, h]
      · simp [hashMapInsert, h2, assocGet, ih]

/-- C4: for every rule code and every two calls to `op_add_diagnostics` for
that code within one invocation, the per-invocation diagnostic map
afterwards holds exactly the diagnostics of the second call — the second
call overwrites the first, it does not merge or append. -/
theorem op_add_diagnostics_last_write_wins (s : OpState) (code : String)
    (ds1 ds2 : List InnerDiagnostics) :
    assocGet (op_add_diagnostics (op_add_diagnostics s code ds1) code ds2).diagnostics code
      = some ds2 := by
  simp [op_add_diagnostics, assocGet_hashMapInsert_self]

/-- C5: `op_query_control_flow_by_span` keys its lookup on `span.lo` only;
an unrecorded position yields `none`/`none` (no fabricated default), and a
recorded meta yields `some (!unreachable)` and `some stops_execution`. -/
theorem query_control_flow_by_span_spec (cf : ControlFlow) (span : Span) :
    (∀ span2 : Span, span2.lo = span.lo →
      op_query_control_flow_by_span cf span2 = op_query_control_flow_by_span cf span) ∧
    (cf.meta span.lo = none →
      op_query_control_flow_by_span cf span
        = { is_reachable := none, stops_execution := none }) ∧
    (∀ m, cf.meta span.lo = some m →
      op_query_control_flow_by_span cf span
        = { is_reachable := some (!m.unreachable),
            stops_execution := some m.stops_execution }) := by
  refine ⟨?_, ?_, ?_⟩
  · intro span2 h
    simp [op_query_control_flow_by_span, h]
  · intro h
    simp [op_query_control_flow_by_span, h]
  · intro m h
    simp [op_query_control_flow_by_span, h]

/-- C5 witness: a concrete recorded position: meta at `lo = 5` with
`unreachable = false`, `stops_execution = true`. -/
theorem query_control_flow_by_span_spec_witness :
    op_query_control_flow_by_span [(5, { unreachable := false, stops_execution := true })]
        { lo := 5, hi := 10 }
      = { is_reachable := some true, stops_execution := some true } :=
  (query_control_flow_by_span_spec _ _).2.2
    { unreachable := false, stops_execution := true } rfl

/-- C6: one harvested record keeps its span, message and hint unchanged and
carries the reporting code as `rule_code`; a record with a hint goes through
`add_diagnostic_with_hint`, one without through `add_diagnostic`. -/
theorem harvested_diagnostic_preserves_fields (ctx : Context) (code : String)
    (d : InnerDiagnostics) :
    (foldDiagnostic ctx code d).diagnostics
      = ctx.diagnostics
        ++ [{ rule_code := code, span := d.span, message := d.message, hint := d.hint }] ∧
    (∀ h, d.hint = some h →
      foldDiagnostic ctx code d = ctx.add_diagnostic_with_hint d.span code d.message h) ∧
    (d.hint = none → foldDiagnostic ctx code d = ctx.add_diagnostic d.span code d.message) := by
  refine ⟨foldDiagnostic_diagnostics ctx code d, ?_, ?_⟩
  · intro h hh
    simp [foldDiagnostic, hh]
  · intro hh
    simp [foldDiagnostic, hh]

/-- C6 witness: the spec's round-trip example — span `{5,10}`, message
`"m"`, hint `"h"`. -/
theorem harvested_diagnostic_preserves_fields_witness :
    (foldDiagnostic ctxE "plugin-rule"
        { span := { lo := 5, hi := 10 }, message := "m", hint := some "h" }).diagnostics
      = ctxE.diagnostics
        ++ [{ rule_code := "plugin-rule", span := { lo := 5, hi := 10 },
              message := "m", hint := some "h" }] :=
  (harvested_diagnostic_preserves_fields ctxE "plugin-rule"
    { span := { lo := 5, hi := 10 }, message := "m", hint := some "h" }).1

/-- C10: visiting a non-null assertion adds exactly one diagnostic, at the
assertion's own (outermost) span, whatever is nested inside — the visitor
does not descend into the assertion's children, so directly nested inner
assertions are not separately reported. -/
theorem no_non_null_assertion_outermost_only (ctx : Context) (s : Span) (e : TsExpr) :
    (noNonNullVisitExpr ctx (TsExpr.tsNonNull s e)).diagnostics
      = ctx.diagnostics
        ++ [{ rule_code := noNonNullAssertionCode, span := s,
              message := noNonNullAssertionMessage, hint := none }] := rfl

theorem visitSwitchCase_diagnostics_mono (c : Context) (cse : SwitchCase) (d : Diagnostic)
    (h : d ∈ c.diagnostics) : d ∈ (visitSwitchCase c cse).diagnostics := by
  unfold visitSwitchCase
  split
  · split
    · exact List.mem_append_left _ h
    · exact h
  · exact h

theorem foldl_visitSwitchCase_mono (cs : List SwitchCase) (c : Context) (d : Diagnostic)
    (h : d ∈ c.diagnostics) : d ∈ (cs.foldl visitSwitchCase c).diagnostics := by
  induction cs generalizing c with
  | nil => exact h
  | cons cse rest ih => exact ih _ (visitSwitchCase_diagnostics_mono c cse d h)

theorem foldl_visitSwitchCase_mem (cs : List SwitchCase) (c : Context) (cse : SwitchCase)
    (i : Ident) (ht : cse.test = some (JsExpr.ident i)) (hnan : is_nan_identifier i = true)
    (hmem : cse ∈ cs) :
    ({ rule_code := useIsNaNCode, span := cse.span, message := caseUnmatchedMessage,
       hint := none } : Diagnostic) ∈ (cs.foldl visitSwitchCase c).diagnostics := by
  revert hmem
  induction cs generalizing c with
  | nil => intro hmem; cases hmem
  | cons head rest ih =>
    intro hmem
    rcases List.mem_cons.mp hmem with h1 | h2
    · subst h1
      exact foldl_visitSwitchCase_mono rest _ _
        (by simp [visitSwitchCase, ht, hnan, Context.add_diagnostic])
    · exact ih _ h2

/-- C9: degenerate never-matching switch cases are flagged by the
`use-isnan` rule logic: an identifier-`NaN` discriminant produces a
`"use-isnan"` diagnostic at the switch statement's span, and every case
clause whose test is the identifier `NaN` produces one at that case's
span. -/
theorem use_isnan_switch_diagnostics (ctx : Context) (s : SwitchStmt) :
    (∀ i, s.discriminant = JsExpr.ident i → is_nan_identifier i = true →
      ({ rule_code := useIsNaNCode, span := s.span, message := switchUnmatchedMessage,
         hint := none } : Diagnostic) ∈ (visit_switch_stmt ctx s).diagnostics) ∧
    (∀ cse ∈ s.cases, ∀ i, cse.test = some (JsExpr.ident i) → is_nan_identifier i = true →
      ({ rule_code := useIsNaNCode, span := cse.span, message := caseUnmatchedMessage,
         hint := none } : Diagnostic) ∈ (visit_switch_stmt ctx s).diagnostics) := by
  constructor
  · intro i hd hnan
    unfold visit_switch_stmt
    apply foldl_visitSwitchCase_mono
    simp [visitSwitchDiscriminant, hd, hnan, Context.add_diagnostic]
  · intro cse hmem i ht hnan
    unfold visit_switch_stmt
    exact foldl_visitSwitchCase_mem s.cases _ cse i ht hnan hmem

/-- C9 witness: `switch (NaN) { case NaN: }` — both the switch-level and the
case-level diagnostics are present. -/
theorem use_isnan_switch_diagnostics_witness :
    ({ rule_code := useIsNaNCode, span := { lo := 0, hi := 30 },
       message := switchUnmatchedMessage, hint := none } : Diagnostic)
        ∈ (visit_switch_stmt ctxE switchW).diagnostics ∧
    ({ rule_code := useIsNaNCode, span := { lo := 15, hi := 25 },
       message := caseUnmatchedMessage, hint := none } : Diagnostic)
        ∈ (visit_switch_stmt ctxE switchW).diagnostics := by
  constructor
  · exact (use_isnan_switch_diagnostics ctxE switchW).1 _ rfl (by decide)
  · exact (use_isnan_switch_diagnostics ctxE switchW).2
      { span := { lo := 15, hi := 25 },
        test := some (JsExpr.ident { span := { lo := 20, hi := 23 }, sym := "NaN" }) }
      (by simp [switchW]) _ rfl (by decide)

/-- C1 counterexample: a module that reports one diagnostic for `"r"` and
then faults inside the entry point. The invocation's only possible outcome
is the recoverable error carrying a context with NO diagnostics: the `?` on
`execute_script("runPlugins", ..)` (js.rs line 199) returns before the
harvest loop runs, so the already-reported diagnostic is discarded, contrary
to the claim. -/
theorem fault_discards_reported_diagnostic :
    PluginRun mFault ctxE (RunResult.errResult ctxAfterFault) ∧
    (∀ r, PluginRun mFault ctxE r → r = RunResult.errResult ctxAfterFault) ∧
    ctxAfterFault.diagnostics = [] := by
  refine ⟨rfl, ?_, rfl⟩
  intro r h
  exact h

/-- C1 amended: if the entry-point invocation faults, `PluginRunner::run`
returns the error immediately and no diagnostics reported before the fault
are folded into the Diagnostic Context — the context's diagnostic list is
exactly what it was before the invocation (only the plugin codes are
recorded). Partial results are discarded, not kept. -/
theorem run_fault_discards_diagnostics (m : ModuleBehavior) (ctx : Context) (r : RunResult)
    (hl : m.loadOk = true) (he : m.evalOk = true) (hr : m.runOk = false)
    (h : PluginRun m ctx r) :
    r = RunResult.errResult (Context.set_plugin_codes ctx (codesAfterEval m)) ∧
    (Context.set_plugin_codes ctx (codesAfterEval m)).diagnostics = ctx.diagnostics := by
  unfold PluginRun at h
  split at h
  · rename_i hc
    rw [hl, he] at hc
    simp at hc
  · exact ⟨h, rfl⟩
  · rename_i hc hrun
    rw [hr] at hrun
    cases hrun

/-- C1 amended witness: the faulting module `mFault` at an empty context. -/
theorem run_fault_discards_diagnostics_witness :
    RunResult.errResult ctxAfterFault
        = RunResult.errResult (Context.set_plugin_codes ctxE (codesAfterEval mFault)) ∧
    (Context.set_plugin_codes ctxE (codesAfterEval mFault)).diagnostics = ctxE.diagnostics :=
  run_fault_discards_diagnostics mFault ctxE (RunResult.errResult ctxAfterFault)
    rfl rfl rfl rfl

/-- C2 counterexample: a module whose load fails. The host's only possible
outcome is the aborting panic (`load_module(..).unwrap()`, js.rs line 154),
which is not a recoverable error value, contrary to the claim. -/
theorem load_failure_aborts_run :
    PluginRun mLoadFail ctxE RunResult.aborted ∧
    (∀ r, PluginRun mLoadFail ctxE r → r = RunResult.aborted) ∧
    (∀ c : Context, RunResult.aborted ≠ RunResult.errResult c) := by
  refine ⟨rfl, ?_, ?_⟩
  · intro r h
    exact h
  · intro c h
    cases h

/-- C2 amended: only a fault thrown during the `runPlugins` entry-point
script is surfaced as a recoverable error value for that rule; a module
that fails to load or whose evaluation faults makes the host panic
(`unwrap`), aborting the run rather than returning a `PluginError`. -/
theorem plugin_error_boundary (m : ModuleBehavior) (ctx : Context) (r : RunResult)
    (h : PluginRun m ctx r) :
    ((m.loadOk = false ∨ m.evalOk = false) → r = RunResult.aborted) ∧
    (m.loadOk = true → m.evalOk = true → m.runOk = false →
      r = RunResult.errResult (Context.set_plugin_codes ctx (codesAfterEval m))) := by
  constructor
  · intro hfail
    unfold PluginRun at h
    split at h
    · exact h
    · rename_i hc hrun
      rcases hfail with hf | hf <;> rw [hf] at hc <;> simp at hc
    · rename_i hc hrun
      rcases hfail with hf | hf <;> rw [hf] at hc <;> simp at hc
  · intro hl he hr
    unfold PluginRun at h
    split at h
    · rename_i hc
      rw [hl, he] at hc
      simp at hc
    · exact h
    · rename_i hc hrun
      rw [hr] at hrun
      cases hrun

/-- C2 amended witness: the load-failing module `mLoadFail` aborts. -/
theorem plugin_error_boundary_witness :
    ((mLoadFail.loadOk = false ∨ mLoadFail.evalOk = false) →
      RunResult.aborted = RunResult.aborted) ∧
    (mLoadFail.loadOk = true → mLoadFail.evalOk = true → mLoadFail.runOk = false →
      RunResult.aborted
        = RunResult.errResult (Context.set_plugin_codes ctxE (codesAfterEval mLoadFail))) :=
  plugin_error_boundary mLoadFail ctxE RunResult.aborted rfl

theorem mem_hashMapInsert {α : Type} (m : List (String × α)) (c : String) (v : α)
    (p : String × α) : p ∈ hashMapInsert m c v → p ∈ m ∨ p = (c, v) := by
  induction m with
  | nil =>
    intro h
    simp [hashMapInsert] at h
    exact Or.inr h
  | cons q rest ih =>
    obtain ⟨k, w⟩ := q
    intro h
    by_cases hk : k = c
    · simp only [hashMapInsert, if_pos hk] at h
      rcases List.mem_cons.mp h with h2 | h2
      · exact Or.inr h2
      · exact Or.inl (List.mem_cons_of_mem _ h2)
    · simp only [hashMapInsert, if_neg hk] at h
      rcases List.mem_cons.mp h with h2 | h2
      · exact Or.inl (by rw [h2]; exact List.mem_cons_self _ _)
      · rcases ih h2 with h3 | h3
        · exact Or.inl (List.mem_cons_of_mem _ h3)
        · exact Or.inr h3

theorem mem_diagnostics_applyOp (s : OpState) (op : OpCall) (a : String)
    (b : List InnerDiagnostics) :
    (a, b) ∈ (applyOp s op).diagnostics →
      (a, b) ∈ s.diagnostics ∨ op = OpCall.addDiagnostics a b := by
  cases op with
  | addRuleCode code =>
    intro h
    exact Or.inl h
  | addDiagnostics code ds =>
    intro h
    rcases mem_hashMapInsert s.diagnostics code ds (a, b) h with h2 | h2
    · exact Or.inl h2
    · have hc : a = code ∧ b = ds := by
        injection h2 with h3 h4
        exact ⟨h3, h4⟩
      exact Or.inr (by rw [hc.1, hc.2])

theorem mem_diagnostics_stateAfter (ops : List OpCall) (s : OpState) (a : String)
    (b : List InnerDiagnostics) :
    (a, b) ∈ (stateAfter ops s).diagnostics →
      (a, b) ∈ s.diagnostics ∨ OpCall.addDiagnostics a b ∈ ops := by
  induction ops generalizing s with
  | nil =>
    intro h
    exact Or.inl h
  | cons op rest ih =>
    intro h
    rcases ih (applyOp s op) h with h2 | h2
    · rcases mem_diagnostics_applyOp s op a b h2 with h3 | h3
      · exact Or.inl h3
      · exact Or.inr (by rw [h3]; exact List.mem_cons_self _ _)
    · exact Or.inr (List.mem_cons_of_mem _ h2)

theorem mem_harvestList (e : List (String × List InnerDiagnostics)) (d : Diagnostic) :
    d ∈ harvestList e → ∃ p, p ∈ e ∧ ∃ x, x ∈ p.2 ∧ d = toDiagnostic p.1 x := by
  induction e with
  | nil =>
    intro h
    cases h
  | cons p rest ih =>
    obtain ⟨code, ds⟩ := p
    intro h
    simp only [harvestList] at h
    rcases List.mem_append.mp h with h2 | h2
    · rcases List.mem_map.mp h2 with ⟨x, hx, hdx⟩
      exact ⟨(code, ds), List.mem_cons_self _ _, x, hx, hdx.symm⟩
    · rcases ih h2 with ⟨q, hq, x, hx, hdx⟩
      exact ⟨q, List.mem_cons_of_mem _ hq, x, hx, hdx⟩

/-- C7: every invocation starts from a fresh, empty per-invocation state, so
after two sequential invocations of (possibly the same) modules the
second invocation only appends diagnostics that the second invocation's
module itself reported — never one carried over from the first. -/
theorem plugin_invocation_isolation (m1 m2 : ModuleBehavior) (ctx0 ctx1 ctx2 : Context)
    (_h1 : PluginRun m1 ctx0 (RunResult.okResult ctx1))
    (h2 : PluginRun m2 ctx1 (RunResult.okResult ctx2)) :
    ∃ tail, ctx2.diagnostics = ctx1.diagnostics ++ tail ∧ ∀ d ∈ tail, ReportedBy m2 d := by
  unfold PluginRun at h2
  split at h2
  · cases h2
  · cases h2
  · rcases h2 with ⟨e, hperm, heq⟩
    have hctx : ctx2 = harvestInto (Context.set_plugin_codes ctx1 (codesAfterEval m2)) e :=
      RunResult.okResult.inj heq
    refine ⟨harvestList e, ?_, ?_⟩
    · rw [hctx, harvestInto_diagnostics]
      rfl
    · intro d hd
      rcases mem_harvestList e d hd with ⟨p, hp, x, hx, hdx⟩
      obtain ⟨code, ds⟩ := p
      have hp2 : (code, ds) ∈ finalDiagEntries m2 := hperm.mem_iff.mp hp
      rcases mem_diagnostics_stateAfter m2.runOps _ code ds hp2 with h3 | h3
      · rcases mem_diagnostics_stateAfter m2.evalOps initState code ds h3 with h4 | h4
        · simp [initState] at h4
        · exact ⟨code, ds, x, Or.inl h4, hx, hdx⟩
      · exact ⟨code, ds, x, Or.inr h3, hx, hdx⟩

/-- C7 witness: `mIso1` reports one diagnostic for `"r"`; the following
invocation of `mIso2` (which reports nothing for `"r"`) appends only what it
itself reported. -/
theorem plugin_invocation_isolation_witness :
    ∃ tail, ctxIso2.diagnostics = ctxIso1.diagnostics ++ tail ∧
      ∀ d ∈ tail, ReportedBy mIso2 d :=
  plugin_invocation_isolation mIso1 mIso2 ctxE ctxIso1 ctxIso2
    ⟨finalDiagEntries mIso1, List.Perm.refl _, rfl⟩
    ⟨finalDiagEntries mIso2, List.Perm.refl _, rfl⟩

theorem runPlugins_ops_sound (rules : List (String × JsRuleBehavior)) (ruleCodes : List String)
    (c : String) (ds : List InnerDiagnostics) :
    OpCall.addDiagnostics c ds ∈ runPlugins rules ruleCodes →
      ∃ rule, assocGet rules c = some rule ∧ ds = rule.collected := by
  induction ruleCodes with
  | nil =>
    intro h
    cases h
  | cons code rest ih =>
    intro h
    cases hg : assocGet rules code with
    | none =>
      simp only [runPlugins, hg] at h
      exact ih h
    | some rule =>
      simp only [runPlugins, hg] at h
      rcases List.mem_cons.mp h with h2 | h2
      · injection h2 with hc hd
        subst hc
        exact ⟨rule, hg, hd⟩
      · exact ih h2

theorem assocGet_stateAfter_of_not_reported (ops : List OpCall) (s : OpState) (c : String) :
    (∀ ds, OpCall.addDiagnostics c ds ∉ ops) →
      assocGet (stateAfter ops s).diagnostics c = assocGet s.diagnostics c := by
  induction ops generalizing s with
  | nil =>
    intro _
    rfl
  | cons op rest ih =>
    intro h
    have hrest : ∀ ds, OpCall.addDiagnostics c ds ∉ rest :=
      fun ds hm => h ds (List.mem_cons_of_mem _ hm)
    have step : assocGet (applyOp s op).diagnostics c = assocGet s.diagnostics c := by
      cases op with
      | addRuleCode code => rfl
      | addDiagnostics code ds =>
        have hne : code ≠ c := by
          intro hh
          subst hh
          exact h ds (List.mem_cons_self _ _)
        exact assocGet_hashMapInsert_ne s.diagnostics code c ds hne
    calc assocGet (stateAfter (op :: rest) s).diagnostics c
        = assocGet (stateAfter rest (applyOp s op)).diagnostics c := rfl
      _ = assocGet (applyOp s op).diagnostics c := ih _ hrest
      _ = assocGet s.diagnostics c := step

theorem assocGet_eq_none_keys {α : Type} (e : List (String × α)) (c : String) :
    assocGet e c = none → ∀ p ∈ e, p.1 ≠ c := by
  induction e with
  | nil =>
    intro _ p hp
    cases hp
  | cons q rest ih =>
    obtain ⟨k, v⟩ := q
    intro h p hp
    by_cases hk : k = c
    · simp [assocGet, hk] at h
    · simp only [assocGet, if_neg hk] at h
      rcases List.mem_cons.mp hp with h2 | h2
      · rw [h2]
        exact hk
      · exact ih h p h2

/-- C8: a rule code with no registered rule is skipped silently by the
`runPlugins` driver: it emits no `op_add_diagnostics` call for that code,
the per-invocation diagnostic map ends with no entry for it, and the
harvested output contains no diagnostic carrying it — and the driver always
runs to completion, raising no error. -/
theorem unregistered_code_skipped (rules : List (String × JsRuleBehavior))
    (ruleCodes : List String) (c : String) (h : assocGet rules c = none) :
    (∀ ds, OpCall.addDiagnostics c ds ∉ runPlugins rules ruleCodes) ∧
    assocGet (stateAfter (runPlugins rules ruleCodes) initState).diagnostics c = none ∧
    (∀ d, d ∈ harvestList (stateAfter (runPlugins rules ruleCodes) initState).diagnostics →
      d.rule_code ≠ c) := by
  have hnotin : ∀ ds, OpCall.addDiagnostics c ds ∉ runPlugins rules ruleCodes := by
    intro ds hmem
    rcases runPlugins_ops_sound rules ruleCodes c ds hmem with ⟨rule, hg, _⟩
    rw [h] at hg
    cases hg
  have hnone :
      assocGet (stateAfter (runPlugins rules ruleCodes) initState).diagnostics c = none := by
    rw [assocGet_stateAfter_of_not_reported _ _ _ hnotin]
    rfl
  refine ⟨hnotin, hnone, ?_⟩
  intro d hd heq
  rcases mem_harvestList _ d hd with ⟨p, hp, x, hx, hdx⟩
  have hp1 : p.1 = c := by
    rw [hdx] at heq
    exact heq
  exact assocGet_eq_none_keys _ _ hnone p hp hp1

/-- C8 witness: the active set `{"foo"}` against a rule map registering only
`"bar"` — the final diagnostic map has no entry for `"foo"`. -/
theorem unregistered_code_skipped_witness :
    assocGet (stateAfter (runPlugins rulesW ["foo"]) initState).diagnostics "foo" = none :=
  (unregistered_code_skipped rulesW ["foo"] "foo" (by decide)).2.1

theorem mem_keys_hashMapInsert {α : Type} (m : List (String × α)) (c : String) (v : α)
    (x : String) : x ∈ (hashMapInsert m c v).map Prod.fst → x ∈ m.map Prod.fst ∨ x = c := by
  intro h
  rcases List.mem_map.mp h with ⟨p, hp, hx⟩
  rcases mem_hashMapInsert m c v p hp with h2 | h2
  · exact Or.inl (by rw [← hx]; exact List.mem_map_of_mem _ h2)
  · exact Or.inr (by rw [← hx, h2])

theorem nodupKeys_hashMapInsert {α : Type} (m : List (String × α)) (c : String) (v : α) :
    NodupKeys m → NodupKeys (hashMapInsert m c v) := by
  induction m with
  | nil =>
    intro _
    simp [hashMapInsert, NodupKeys]
  | cons p rest ih =>
    obtain ⟨k, w⟩ := p
    intro hn
    simp only [NodupKeys, List.map_cons, List.nodup_cons] at hn
    obtain ⟨hk, hrest⟩ := hn
    by_cases hkc : k = c
    · subst hkc
      have hins : hashMapInsert ((k, w) :: rest) k v = (k, v) :: rest := by
        simp [hashMapInsert]
      rw [hins]
      simp only [NodupKeys, List.map_cons, List.nodup_cons]
      exact ⟨hk, hrest⟩
    · simp only [hashMapInsert, if_neg hkc]
      simp only [NodupKeys, List.map_cons, List.nodup_cons]
      constructor
      · intro hmem
        rcases mem_keys_hashMapInsert rest c v k hmem with h2 | h2
        · exact hk h2
        · exact hkc h2
      · exact ih hrest

theorem nodupKeys_applyOp (s : OpState) (op : OpCall) :
    NodupKeys s.diagnostics → NodupKeys (applyOp s op).diagnostics := by
  cases op with
  | addRuleCode code =>
    intro h
    exact h
  | addDiagnostics code ds =>
    intro h
    exact nodupKeys_hashMapInsert _ _ _ h

theorem nodupKeys_stateAfter (ops : List OpCall) (s : OpState) :
    NodupKeys s.diagnostics → NodupKeys (stateAfter ops s).diagnostics := by
  induction ops generalizing s with
  | nil =>
    intro h
    exact h
  | cons op rest ih =>
    intro h
    exact ih _ (nodupKeys_applyOp s op h)

theorem nodupKeys_finalDiagEntries (m : ModuleBehavior) : NodupKeys (finalDiagEntries m) := by
  apply nodupKeys_stateAfter
  show NodupKeys (stateAfter m.evalOps initState).diagnostics
  apply nodupKeys_stateAfter
  simp [initState, NodupKeys]

theorem filter_map_toDiagnostic (code c : String) (ds : List InnerDiagnostics) :
    (ds.map (toDiagnostic code)).filter (fun d => decide (d.rule_code = c))
      = if code = c then ds.map (toDiagnostic code) else [] := by
  induction ds with
  | nil => simp
  | cons x rest ih =>
    by_cases h : code = c <;> simp [toDiagnostic, h, ih]

theorem filter_harvestList (e : List (String × List InnerDiagnostics)) (c : String) :
    (harvestList e).filter (fun d => decide (d.rule_code = c))
      = harvestList (e.filter (fun p => decide (p.1 = c))) := by
  induction e with
  | nil => simp [harvestList]
  | cons p rest ih =>
    obtain ⟨code, ds⟩ := p
    by_cases h : code = c
    · subst h
      simp [harvestList, List.filter_append, filter_map_toDiagnostic, ih]
    · simp [harvestList, List.filter_append, filter_map_toDiagnostic, h, ih]

theorem assocGet_eq_none_of_not_mem_keys {α : Type} (e : List (String × α)) (c : String) :
    c ∉ e.map Prod.fst → assocGet e c = none := by
  induction e with
  | nil =>
    intro _
    rfl
  | cons p rest ih =>
    obtain ⟨k, v⟩ := p
    intro h
    simp only [List.map_cons, List.mem_cons] at h
    push_neg at h
    obtain ⟨hk, hrest⟩ := h
    simp only [assocGet]
    rw [if_neg (Ne.symm hk)]
    exact ih hrest

theorem filter_eq_nil_of_none {α : Type} (e : List (String × α)) (c : String) :
    assocGet e c = none → e.filter (fun p => decide (p.1 = c)) = [] := by
  induction e with
  | nil =>
    intro _
    rfl
  | cons p rest ih =>
    obtain ⟨k, v⟩ := p
    intro h
    by_cases hk : k = c
    · simp [assocGet, hk] at h
    · simp only [assocGet, if_neg hk] at h
      simp [List.filter_cons, hk, ih h]

theorem entriesFor_of_some {α : Type} (e : List (String × α)) (c : String) (v : α) :
    NodupKeys e → assocGet e c = some v →
      e.filter (fun p => decide (p.1 = c)) = [(c, v)] := by
  induction e with
  | nil =>
    intro _ h
    cases h
  | cons p rest ih =>
    obtain ⟨k, w⟩ := p
    intro hn h
    simp only [NodupKeys, List.map_cons, List.nodup_cons] at hn
    obtain ⟨hk, hrest⟩ := hn
    by_cases hkc : k = c
    · subst hkc
      have huf : assocGet ((k, w) :: rest) k = some w := by simp [assocGet]
      rw [huf, Option.some.injEq] at h
      subst h
      have hnone : assocGet rest k = none := assocGet_eq_none_of_not_mem_keys rest k hk
      simp [List.filter_cons, filter_eq_nil_of_none rest k hnone]
    · simp only [assocGet, if_neg hkc] at h
      simp [List.filter_cons, hkc, ih hrest h]

/-- C3 amended: within a single rule code the harvested diagnostics appear
exactly in the order of the module's (last) `report_diagnostics` call for
that code; the interleaving across different codes follows the diagnostic
map's iteration order, which is unspecified (a Rust `HashMap`), so the full
harvest order is neither the module's reporting order nor deterministic
across runs. -/
theorem per_code_harvest_order (m : ModuleBehavior) (ctx ctx2 : Context) (c : String)
    (h : PluginRun m ctx (RunResult.okResult ctx2)) :
    ∃ harvested, ctx2.diagnostics = ctx.diagnostics ++ harvested ∧
      harvested.filter (fun d => decide (d.rule_code = c))
        = ((assocGet (finalDiagEntries m) c).getD []).map (toDiagnostic c) := by
  unfold PluginRun at h
  split at h
  · cases h
  · cases h
  · rcases h with ⟨e, hperm, heq⟩
    have hctx : ctx2 = harvestInto (Context.set_plugin_codes ctx (codesAfterEval m)) e :=
      RunResult.okResult.inj heq
    refine ⟨harvestList e, ?_, ?_⟩
    · rw [hctx, harvestInto_diagnostics]
      rfl
    · rw [filter_harvestList]
      have hpermf : List.Perm (e.filter (fun p => decide (p.1 = c)))
          ((finalDiagEntries m).filter (fun p => decide (p.1 = c))) :=
        hperm.filter _
      cases hg : assocGet (finalDiagEntries m) c with
      | none =>
        rw [filter_eq_nil_of_none _ _ hg] at hpermf
        rw [hpermf.eq_nil]
        simp [harvestList]
      | some ds =>
        rw [entriesFor_of_some _ _ _ (nodupKeys_finalDiagEntries m) hg] at hpermf
        rw [List.perm_singleton.mp hpermf]
        simp [harvestList]

/-- C3 amended witness: `mMulti` harvested in insertion order; the filtered
sublist for code `"a"` equals the map entry for `"a"`. -/
theorem per_code_harvest_order_witness :
    ∃ harvested, cOrdA.diagnostics = ctxE.diagnostics ++ harvested ∧
      harvested.filter (fun d => decide (d.rule_code = "a"))
        = ((assocGet (finalDiagEntries mMulti) "a").getD []).map (toDiagnostic "a") :=
  per_code_harvest_order mMulti ctxE cOrdA "a" ⟨entriesAB, by decide, rfl⟩

/-- C3 counterexample: `mMulti` reports for `"a"` and then `"b"`; because
the per-invocation map is a hash map with unspecified iteration order, both
the `"a"`-first and the `"b"`-first harvests are possible outcomes of the
very same invocation, and they append different sequences — the harvest
order is not determined by the reporting order, and two runs of the same
module on the same program need not agree. -/
theorem harvest_order_not_deterministic :
    PluginRun mMulti ctxE (RunResult.okResult cOrdA) ∧
    PluginRun mMulti ctxE (RunResult.okResult cOrdB) ∧
    cOrdA.diagnostics ≠ cOrdB.diagnostics := by
  refine ⟨⟨entriesAB, by decide, rfl⟩, ⟨entriesBA, by decide, rfl⟩, by decide⟩
